import Mathlib

/-!
Verification of the gtri-gfet STL geometry-analysis scripts.

The Python sources are shallowly embedded over exact rationals:

* machine floats become `ℚ`; `math.sqrt` is an explicit function parameter
  `s : ℚ → ℚ` wherever the scripts call it (the theorems either hold for
  every such function, or instantiate it with `sqrtQ`, which agrees with the
  real square root on the perfect squares used by the concrete inputs);
* the IEEE-754 floats decoded by `struct.unpack` in the binary STL parser are
  represented by their 4-byte little-endian bit patterns (a bijection, so
  nothing is lost at the granularity the parser claims speak about);
* fallible Python code (struct decode errors, division by zero) is embedded
  with `Except` / `Option`;
* `round` is Python 3 banker's rounding, `int` truncates toward zero, and
  `sorted` is a stable sort, embedded with `List.insertionSort` (stable, and
  it evaluates inside the kernel).
-/

/-- Exact model of the square root used on concrete inputs: exact on
rationals whose numerator and denominator are perfect squares (all concrete
inputs below are chosen this way, so it agrees with `math.sqrt` there). -/
def sqrtQ (q : ℚ) : ℚ := (Nat.sqrt q.num.toNat : ℚ) / (Nat.sqrt q.den : ℚ)

/-- Floor of a rational, via Euclidean division (denominator is positive). -/
def ratFloor (q : ℚ) : ℤ := Int.ediv q.num q.den

/-- Python 3 `round` to an integer: round half to even. -/
def pyRound (q : ℚ) : ℤ :=
  let f := ratFloor q
  if q - f < 1/2 then f
  else if (1 : ℚ)/2 < q - f then f + 1
  else if 2 ∣ f then f else f + 1

/-- Python `int()` on a float value: truncation toward zero. -/
def pyInt (q : ℚ) : ℤ := if 0 ≤ q then ratFloor q else -(ratFloor (-q))

/-- Python `round(x, 2)`. -/
def round2 (q : ℚ) : ℚ := (pyRound (q * 100) : ℚ) / 100

/-- Python `range(a, b)` over integers. -/
def intRange (a b : ℤ) : List ℤ := (List.range (b - a).toNat).map (fun i => a + i)

/-- `sum(l) / len(l)`: the mean as the scripts compute it (`0` on `[]`,
where Python would raise; every use site is guarded by a length check). -/
def meanQ (l : List ℚ) : ℚ := l.sum / l.length

/-- Population variance as the scripts compute it. -/
def varQ (l : List ℚ) : ℚ := ((l.map (fun d => (d - meanQ l)^2)).sum) / l.length

/-- Python `min` over a nonempty collection, first element split off. -/
def minD (x : ℚ) (l : List ℚ) : ℚ := l.foldl min x

/-- Python `max` over a nonempty collection, first element split off. -/
def maxD (x : ℚ) (l : List ℚ) : ℚ := l.foldl max x

/-- Python `max` over a possibly empty list (raises on `[]`, hence `Option`). -/
def listMax1 : List ℚ → Option ℚ
  | [] => none
  | x :: t => some (maxD x t)

/-! ## Binary STL parser (`parse_binary_stl`, identical in `analyze_stl.py`,
`detect_helical.py`, `better_hole_finder.py`, `find_hole_positions.py`) -/

/-- Little-endian word from a byte list (used for 4-byte groups). -/
def leWord (bs : List ℕ) : ℕ := bs.foldr (fun b acc => b + 256 * acc) 0

/-- The three 4-byte little-endian words of a 12-byte chunk
(`struct.unpack` of three floats, floats as bit patterns). -/
def words3 (bs : List ℕ) : ℕ × ℕ × ℕ :=
  (leWord (bs.take 4), leWord ((bs.drop 4).take 4), leWord ((bs.drop 8).take 4))

/-- `struct.unpack` of twelve bytes: errors unless exactly 12 bytes came
back from the read. -/
def unpack3f (bs : List ℕ) : Option (ℕ × ℕ × ℕ) :=
  if bs.length = 12 then some (words3 bs) else none

/-- The only error the Python parser can raise while reading facet records:
`struct.error` from a short read. There is no `TruncatedFileError` class
anywhere in the sources. -/
inductive StlErr where
  | structErr
deriving DecidableEq

/-- One parsed binary facet: normal and three vertices, each coordinate a
32-bit little-endian word (the bit pattern of the IEEE-754 float). -/
structure BFacet where
  normal : ℕ × ℕ × ℕ
  v1 : ℕ × ℕ × ℕ
  v2 : ℕ × ℕ × ℕ
  v3 : ℕ × ℕ × ℕ
deriving DecidableEq

/-- The per-triangle loop of `parse_binary_stl`: four sequential 12-byte
reads decoded with `struct.unpack` (Python stops at the first short read;
all four failures raise the same `struct.error`, so they are matched
together), then 2 attribute bytes read and ignored (`f.read(2)` never
checks how many bytes actually came back). -/
def readFacets : ℕ → List ℕ → Except StlErr (List BFacet)
  | 0, _ => .ok []
  | n + 1, bs =>
    match unpack3f (bs.take 12), unpack3f ((bs.drop 12).take 12),
        unpack3f (((bs.drop 12).drop 12).take 12),
        unpack3f ((((bs.drop 12).drop 12).drop 12).take 12) with
    | some nrm, some w1, some w2, some w3 =>
      match readFacets n (((((bs.drop 12).drop 12).drop 12).drop 12).drop 2) with
      | .error e => .error e
      | .ok fs => .ok (⟨nrm, w1, w2, w3⟩ :: fs)
    | _, _, _, _ => .error .structErr

/-- `parse_binary_stl`: skip the 80-byte header (a short header is not
detected), decode the 4-byte little-endian triangle count (`struct.unpack`
errors if fewer than 4 bytes remain), then read that many facet records. -/
def parseBinarySTL (file : List ℕ) : Except StlErr (List BFacet) :=
  if ((file.drop 80).take 4).length = 4 then
    readFacets (leWord ((file.drop 80).take 4)) ((file.drop 80).drop 4)
  else .error .structErr

/-- The pure decoding of one 50-byte facet record: the 12 words of the four
float triples, in order; bytes 48 and 49 (attribute bytes) are not read. -/
def decodeRecord (r : List ℕ) : BFacet :=
  ⟨words3 (r.take 12), words3 ((r.drop 12).take 12),
   words3 ((r.drop 24).take 12), words3 ((r.drop 36).take 12)⟩

/-! ## Geometric facets and the point cloud -/

/-- A vertex or direction with exact rational coordinates. -/
structure Vec3 where
  x : ℚ
  y : ℚ
  z : ℚ
deriving DecidableEq

/-- One triangle as the analysis scripts hold it after parsing. -/
structure Facet where
  normal : Vec3
  v1 : Vec3
  v2 : Vec3
  v3 : Vec3
deriving DecidableEq

/-- `vertices.extend(facet['vertices'])` over all facets, order preserved,
duplicates kept. -/
def allVerts (facets : List Facet) : List Vec3 :=
  facets.flatMap (fun f => [f.v1, f.v2, f.v3])

/-! ## `analyze_stl.find_cylindrical_features` -/

/-- One entry of the `circular_features` list. -/
structure CircFeature where
  z : ℚ
  cx : ℚ
  cy : ℚ
  radius : ℚ
  variance : ℚ
  numPoints : ℕ
deriving DecidableEq

/-- The vertices the script gathers at one Z level:
`[v for v in vertices if abs(v[2] - z) < tolerance]`. -/
def levelVerts (verts : List Vec3) (z tol : ℚ) : List Vec3 :=
  verts.filter (fun v => |v.z - z| < tol)

/-- The distances of the level's points from the level's mean 2D center,
as the script computes them (square root applied to the squared distance). -/
def radiiOf (s : ℚ → ℚ) (lv : List Vec3) : List ℚ :=
  let cx := meanQ (lv.map (·.x))
  let cy := meanQ (lv.map (·.y))
  lv.map (fun v => s ((v.x - cx)^2 + (v.y - cy)^2))

/-- `find_cylindrical_features(facets, tolerance)`: distinct rounded Z
values in ascending order, then per level the mean center, mean radius and
radius variance; a level with fewer than 8 vertices is skipped, and a level
is kept only if the variance is `< 2.0` and the mean radius `> 1.0`. -/
def findCylindricalFeatures (s : ℚ → ℚ) (facets : List Facet) (tol : ℚ) :
    List CircFeature :=
  let vertices := allVerts facets
  let zcs := List.insertionSort (fun a b : ℚ => a ≤ b)
    ((vertices.map (fun v => round2 v.z)).dedup)
  zcs.filterMap (fun z =>
    let lv := levelVerts vertices z tol
    if lv.length < 8 then none
    else
      let radii := radiiOf s lv
      let avg := meanQ radii
      let rvar := varQ radii
      if rvar < 2 ∧ 1 < avg then
        some ⟨z, meanQ (lv.map (·.x)), meanQ (lv.map (·.y)), avg, rvar, lv.length⟩
      else none)

/-! ## `detect_helical.detect_helical_pattern`

Embedded from the point where the script has collected `cylindrical_verts`
(the vertices whose in-plane radius lies in the requested band, with their
cylindrical coordinates); everything after line 70 of `detect_helical.py`
is modelled. `math.pi` is a parameter `pi`. -/

/-- One entry of `cylindrical_verts`: height, signed angle, radius. -/
structure CylVert where
  z : ℚ
  theta : ℚ
  r : ℚ
deriving DecidableEq

/-- The 0.2 mm height bucket key: `round(z * 5) / 5`. -/
def bkey (v : CylVert) : ℚ := (pyRound (v.z * 5) : ℚ) / 5

/-- `z_sorted = sorted(z_angle_data.keys())`. -/
def zKeys (cvs : List CylVert) : List ℚ :=
  List.insertionSort (fun a b : ℚ => a ≤ b) ((cvs.map bkey).dedup)

/-- The vertices of one height bucket, in encounter order. -/
def bucketOf (cvs : List CylVert) (z : ℚ) : List CylVert :=
  cvs.filter (fun v => bkey v = z)

/-- One entry of `z_angle_progression` (the printed-only fields of the
Python dict, `angle_spread` and `num_verts`, are omitted: nothing reads
them after the table is printed). -/
structure ProgEntry where
  z : ℚ
  avgAngle : ℚ
  avgRadius : ℚ
deriving DecidableEq

/-- `z_angle_progression`: per sorted bucket with more than 3 vertices, the
mean angle and mean radius. -/
def progression (cvs : List CylVert) : List ProgEntry :=
  (zKeys cvs).filterMap (fun z =>
    let entries := bucketOf cvs z
    if 3 < entries.length then
      some ⟨z, meanQ (entries.map (·.theta)), meanQ (entries.map (·.r))⟩
    else none)

/-- `angle_z_derivatives`: per consecutive progression pair with height gap
above 0.01, the wraparound-corrected angle difference over the height
difference. -/
def slopes (pi : ℚ) : List ProgEntry → List ℚ
  | a :: b :: rest =>
    (if 1/100 < b.z - a.z then
      let da := b.avgAngle - a.avgAngle
      let da2 := if pi < da then da - 2 * pi
        else if da < -pi then da + 2 * pi else da
      [da2 / (b.z - a.z)]
    else []) ++ slopes pi (b :: rest)
  | _ => []

/-- Thread handedness. -/
inductive Hand where
  | right
  | left
deriving DecidableEq

/-- The dict `detect_helical_pattern` returns when it returns one:
either `{'is_helical': False}` or the full helical record. -/
inductive HelixResult where
  | notHelical
  | helical (pitch : ℚ) (radius : ℚ) (diameter : ℚ) (hand : Hand)
deriving DecidableEq

/-- `detect_helical_pattern` from the cylindrical vertex list on: `None`
on no vertices, fewer than 5 sorted buckets, fewer than 5 progression
entries, or no derivatives; otherwise the classification from the mean and
variance of the slopes. -/
def detectHelicalPattern (pi : ℚ) (cvs : List CylVert) : Option HelixResult :=
  if cvs = [] then none
  else if (zKeys cvs).length < 5 then none
  else
    let prog := progression cvs
    if prog.length < 5 then none
    else
      let ds := slopes pi prog
      if ds = [] then none
      else
        let avg := meanQ ds
        let dvar := varQ ds
        if dvar < 1/100 ∧ 1/100 < |avg| then
          if 1/1000 < |avg| then
            some (.helical (2 * pi / |avg|) (meanQ (prog.map (·.avgRadius)))
              (meanQ (prog.map (·.avgRadius)) * 2)
              (if 0 < avg then .right else .left))
          else some .notHelical
        else some .notHelical

/-! ## `better_hole_finder`: `find_vertical_cylinders` and `cluster_holes` -/

/-- One `hole_candidates` entry / cluster record. -/
structure Hole where
  cx : ℚ
  cy : ℚ
  zmin : ℚ
  zmax : ℚ
  depth : ℚ
  radius : ℚ
  diameter : ℚ
  conf : ℕ
deriving DecidableEq

/-- Python exceptions reachable in `find_vertical_cylinders`. -/
inductive PyErr where
  | zeroDivision
deriving DecidableEq

/-- `find_vertical_cylinders(facets)`: mean part center (dividing by the
vertex count, which raises `ZeroDivisionError` on an empty mesh), vertices
bucketed by rounded radius from that center within `(2, 12)`, and per
sorted radius bucket with more than 3 distinct rounded Z levels, a
candidate when the Z span exceeds 5 and the vertex count exceeds 100. -/
def findVerticalCylinders (s : ℚ → ℚ) (facets : List Facet) :
    Except PyErr (List Hole) :=
  match allVerts facets with
  | [] => .error .zeroDivision
  | v0 :: vrest =>
    let verts := v0 :: vrest
    let n : ℚ := verts.length
    let pcx := (verts.map (·.x)).sum / n
    let pcy := (verts.map (·.y)).sum / n
    let keyed := verts.filterMap (fun v =>
      let r := s ((v.x - pcx)^2 + (v.y - pcy)^2)
      if 2 < r ∧ r < 12 then some (((pyRound (r * 2) : ℚ) / 2, v)) else none)
    let keys := List.insertionSort (fun a b : ℚ => a ≤ b)
      ((keyed.map Prod.fst).dedup)
    .ok (keys.filterMap (fun rb =>
      match (keyed.filter (fun p => p.1 = rb)).map Prod.snd with
      | [] => none
      | p0 :: ps =>
        let positions := p0 :: ps
        match ((positions.map (fun v => pyRound v.z)).dedup) with
        | [] => none
        | z0 :: zs =>
          if 3 < (z0 :: zs).length then
            let zspan : ℤ := (zs.foldl max z0) - (zs.foldl min z0)
            let nv := positions.length
            if 5 < zspan ∧ 100 < nv then
              let zminp := minD p0.z (ps.map (·.z))
              let zmaxp := maxD p0.z (ps.map (·.z))
              some ⟨meanQ (positions.map (·.x)), meanQ (positions.map (·.y)),
                zminp, zmaxp, zmaxp - zminp, rb, rb * 2, nv⟩
            else none
          else none))

/-- Descending-confidence stable sort:
`sorted(holes, key=lambda h: h['confidence'], reverse=True)`. -/
def sortHolesDesc (holes : List Hole) : List Hole :=
  List.insertionSort (fun a b : Hole => b.conf ≤ a.conf) holes

instance : IsTotal Hole (fun a b => b.conf ≤ a.conf) :=
  ⟨fun a b => le_total b.conf a.conf⟩

instance : IsTrans Hole (fun a b => b.conf ≤ a.conf) :=
  ⟨fun _ _ _ hab hbc => le_trans hbc hab⟩

/-- The merge test of `cluster_holes`: Euclidean center distance below the
threshold. -/
def isClose (s : ℚ → ℚ) (thr : ℚ) (hole c : Hole) : Prop :=
  s ((hole.cx - c.cx)^2 + (hole.cy - c.cy)^2) < thr

instance (s : ℚ → ℚ) (thr : ℚ) (hole c : Hole) :
    Decidable (isClose s thr hole c) := by
  unfold isClose; infer_instance

/-- The inner `for cluster in clustered` loop: merge into the first close
cluster (replacing the cluster's dict wholesale when the incoming hole has
strictly greater confidence, `cluster.update(hole)`), `break` afterwards. -/
def mergeFirst (s : ℚ → ℚ) (thr : ℚ) (hole : Hole) :
    List Hole → Option (List Hole)
  | [] => none
  | c :: cs =>
    if isClose s thr hole c then
      some ((if c.conf < hole.conf then hole else c) :: cs)
    else (mergeFirst s thr hole cs).map (c :: ·)

/-- One iteration of the outer loop of `cluster_holes`: merge into the
first close cluster, else append a copy as a new cluster. -/
def clusterStep (s : ℚ → ℚ) (thr : ℚ) (clustered : List Hole) (hole : Hole) :
    List Hole :=
  match mergeFirst s thr hole clustered with
  | some l => l
  | none => clustered ++ [hole]

/-- `cluster_holes(holes, distance_threshold)`: empty guard, then the
greedy merge over holes in descending confidence order. -/
def clusterHoles (s : ℚ → ℚ) (holes : List Hole) (thr : ℚ) : List Hole :=
  if holes = [] then []
  else (sortHolesDesc holes).foldl (clusterStep s thr) []

/-! ## Void sweeps: `sphere_sweep_detection.find_circular_voids_on_top`
and `find_stacked_ports.find_circular_voids_on_back_face` -/

/-- A `holes_found` entry of the top-face sweep (grid X, grid Y). -/
structure VoidHit where
  x : ℤ
  y : ℤ
  centerCount : ℕ
  perimeterCount : ℕ
  pcQuot : ℚ
deriving DecidableEq

/-- A `holes_found` entry of the back-face sweep (grid X, grid Z). -/
structure VoidHitB where
  x : ℤ
  z : ℤ
  centerCount : ℕ
  perimeterCount : ℕ
  pcQuot : ℚ
deriving DecidableEq

/-- Vertices with `center_verts += 1`: distance below half the test
radius. -/
def centerCount (s : ℚ → ℚ) (pts : List (ℚ × ℚ)) (r : ℚ) (cx cy : ℤ) : ℕ :=
  (pts.filter (fun p =>
    s ((p.1 - cx)^2 + (p.2 - cy)^2) < r * (1/2))).length

/-- Vertices with `perimeter_verts += 1`: the `elif` branch, so points in
the inner disk are excluded even if they also satisfy the annulus bounds. -/
def perimCount (s : ℚ → ℚ) (pts : List (ℚ × ℚ)) (r : ℚ) (cx cy : ℤ) : ℕ :=
  (pts.filter (fun p =>
    let d := s ((p.1 - cx)^2 + (p.2 - cy)^2)
    ¬(d < r * (1/2)) ∧ r * (4/5) < d ∧ d < r * (3/2))).length

/-- The 1 mm candidate grid along one coordinate:
`range(int(lo) + 1, int(hi), 1)` of the coordinate's min and max. -/
def gridOf (c : Vec3 → ℚ) : List Vec3 → List ℤ
  | [] => []
  | v :: vs => intRange (pyInt (minD (c v) (vs.map c)) + 1)
      (pyInt (maxD (c v) (vs.map c)))

/-- The nested grid search of the top-face sweep; a hit requires fewer
than 10 inner vertices and more than 50 annulus vertices. -/
def voidScanTop (s : ℚ → ℚ) (pts : List (ℚ × ℚ)) (r : ℚ)
    (gx gy : List ℤ) : List VoidHit :=
  gx.flatMap (fun cx => gy.filterMap (fun cy =>
    let cc := centerCount s pts r cx cy
    let pc := perimCount s pts r cx cy
    if cc < 10 ∧ 50 < pc then
      some ⟨cx, cy, cc, pc, (pc : ℚ) / ((max cc 1 : ℕ) : ℚ)⟩
    else none))

/-- The nested grid search of the back-face sweep; a hit requires fewer
than 10 inner vertices and more than 40 annulus vertices. -/
def voidScanBack (s : ℚ → ℚ) (pts : List (ℚ × ℚ)) (r : ℚ)
    (gx gz : List ℤ) : List VoidHitB :=
  gx.flatMap (fun cx => gz.filterMap (fun cz =>
    let cc := centerCount s pts r cx cz
    let pc := perimCount s pts r cx cz
    if cc < 10 ∧ 40 < pc then
      some ⟨cx, cz, cc, pc, (pc : ℚ) / ((max cc 1 : ℕ) : ℚ)⟩
    else none))

/-- The top-face vertex filter: `v[2] > z_max - 5`. -/
def topFace (vertices : List Vec3) (zmax : ℚ) : List Vec3 :=
  vertices.filter (fun v => zmax - 5 < v.z)

/-- The back-face vertex filter: `v[1] > y_max - 2`. -/
def backFace (vertices : List Vec3) (ymax : ℚ) : List Vec3 :=
  vertices.filter (fun v => ymax - 2 < v.y)

/-- `find_circular_voids_on_top(vertices, test_radius)`: `max` of the Z
coordinates (raises on an empty mesh), the top-face vertices, their X/Y
extents, then the grid scan in the XY plane. The `[]` inner arm is
unreachable (the Z maximum is attained on the top face); Python would raise
there on `min` of an empty sequence. -/
def findCircularVoidsOnTop (s : ℚ → ℚ) (vertices : List Vec3) (r : ℚ) :
    Option (List VoidHit) :=
  match listMax1 (vertices.map (·.z)) with
  | none => none
  | some zmax =>
    match topFace vertices zmax with
    | [] => none
    | t0 :: ts =>
      let top := t0 :: ts
      some (voidScanTop s (top.map (fun v => (v.x, v.y))) r
        (gridOf (·.x) top) (gridOf (·.y) top))

/-- `find_circular_voids_on_back_face(vertices, test_radius)`: `max` of the
Y coordinates, the back-face vertices projected to (X, Z), their extents,
the grid scan in the XZ plane; returns the hits together with `y_max`. -/
def findCircularVoidsOnBackFace (s : ℚ → ℚ) (vertices : List Vec3) (r : ℚ) :
    Option (List VoidHitB × ℚ) :=
  match listMax1 (vertices.map (·.y)) with
  | none => none
  | some ymax =>
    match backFace vertices ymax with
    | [] => none
    | b0 :: bs =>
      let back := b0 :: bs
      some ((voidScanBack s (back.map (fun v => (v.x, v.z))) r
        (gridOf (·.x) back) (gridOf (·.z) back)), ymax)

/-! ## Concrete inputs for witnesses and counterexamples -/

/-- An all-zero 80-byte binary STL header. -/
def hdr80 : List ℕ := List.replicate 80 0

/-- A binary file declaring 1 triangle but holding only the 48 float bytes
of its record: the 2 trailing attribute bytes are missing. -/
def fileMissingAttr : List ℕ := hdr80 ++ ([1, 0, 0, 0] ++ List.replicate 48 0)

/-- A binary file declaring 2 triangles but holding only 47 bytes of
records. -/
def fileShort : List ℕ := hdr80 ++ ([2, 0, 0, 0] ++ List.replicate 47 0)

/-- A well-formed single-record binary file with bytes 0..49 as the
record. -/
def fileOneRec : List ℕ := hdr80 ++ ([1, 0, 0, 0] ++ (List.range 50))

/-- An empty binary mesh: header plus a zero triangle count. -/
def fileEmptyMesh : List ℕ := hdr80 ++ [0, 0, 0, 0]

/-- 20 cylindrical vertices: five 0.2 mm buckets of four vertices each,
angle growing by 0.2 rad per bucket (slope 1 rad per mm). -/
def helixVerts : List CylVert :=
  ((List.range 5).map (fun k =>
    List.replicate 4 (⟨(k : ℚ)/5, (k : ℚ)/5, 2⟩ : CylVert))).flatten

/-- 4 cylindrical vertices in a single height bucket. -/
def oneBucketVerts : List CylVert := List.replicate 4 ⟨0, 1/2, 3⟩

/-- Four facets whose 12 vertices are three copies each of (±2,0,0) and
(0,±2,0): a perfect radius-2 circle at height 0. -/
def circleFacets : List Facet :=
  [⟨⟨0,0,1⟩, ⟨2,0,0⟩, ⟨-2,0,0⟩, ⟨0,2,0⟩⟩,
   ⟨⟨0,0,1⟩, ⟨0,-2,0⟩, ⟨2,0,0⟩, ⟨-2,0,0⟩⟩,
   ⟨⟨0,0,1⟩, ⟨0,2,0⟩, ⟨0,-2,0⟩, ⟨2,0,0⟩⟩,
   ⟨⟨0,0,1⟩, ⟨-2,0,0⟩, ⟨0,2,0⟩, ⟨0,-2,0⟩⟩]

/-- A high-confidence hole at the origin with height range [0, 5]. -/
def hA : Hole := ⟨0, 0, 0, 5, 5, 2, 4, 10⟩

/-- A lower-confidence hole 1 mm away with height range [2, 10]. -/
def hB : Hole := ⟨1, 0, 2, 10, 8, 2, 4, 5⟩

/-- Three equal-confidence holes in a 2.5 mm-spaced chain. -/
def p1 : Hole := ⟨0, 0, 0, 1, 1, 2, 4, 7⟩

/-- Middle hole of the chain. -/
def p2 : Hole := ⟨5/2, 0, 0, 1, 1, 2, 4, 7⟩

/-- Right hole of the chain. -/
def p3 : Hole := ⟨5, 0, 0, 1, 1, 2, 4, 7⟩

/-- A top face holding 45 vertices at distance 3 from the grid point
(10, 10) plus four boundary vertices at distance 1 from it. -/
def annulusVerts : List Vec3 :=
  List.replicate 45 ⟨13, 10, 0⟩ ++ [⟨9, 10, 0⟩, ⟨11, 10, 0⟩, ⟨10, 9, 0⟩, ⟨10, 11, 0⟩]

/-- A one-vertex mesh for exercising the back-face sweep. -/
def oneVert : List Vec3 := [⟨0, 0, 0⟩]

/-! ## Theorems -/

/-- `sqrtQ` is exact on squares of nonnegative rationals, so it agrees
with the real square root at every concrete input used below. -/
theorem sqrtQ_sq (q : ℚ) (h : 0 ≤ q) : sqrtQ (q * q) = q := by
  have hnum : 0 ≤ q.num := Rat.num_nonneg.mpr h
  have h1 : (q * q).num.toNat = q.num.toNat * q.num.toNat := by
    have : ((q * q).num.toNat : ℤ) = ((q.num.toNat * q.num.toNat : ℕ) : ℤ) := by
      rw [Int.toNat_of_nonneg (by rw [Rat.mul_self_num]; positivity)]
      push_cast
      rw [Int.toNat_of_nonneg hnum, Rat.mul_self_num]
    exact_mod_cast this
  have h2 : (q * q).den = q.den * q.den := Rat.mul_self_den q
  unfold sqrtQ
  rw [h1, h2, Nat.sqrt_eq, Nat.sqrt_eq]
  rw [show ((q.num.toNat : ℕ) : ℚ) = ((q.num : ℤ) : ℚ) by
    exact_mod_cast congrArg (fun n : ℤ => ((n : ℚ))) (Int.toNat_of_nonneg hnum)]
  exact Rat.num_div_den q

/-- A 12-byte take decodes when at least 12 bytes remain. -/
theorem unpack3f_take (bs : List ℕ) (h : 12 ≤ bs.length) :
    unpack3f (bs.take 12) = some (words3 (bs.take 12)) := by
  unfold unpack3f
  rw [if_pos]
  simp only [List.length_take]
  omega

/-- A 12-byte take fails to decode when fewer than 12 bytes remain. -/
theorem unpack3f_take_none (bs : List ℕ) (h : bs.length < 12) :
    unpack3f (bs.take 12) = none := by
  unfold unpack3f
  rw [if_neg]
  simp only [List.length_take]
  omega

/-- The facet loop over a flattened list of 50-byte records returns
exactly their decodings, in order. -/
theorem readFacets_records (records : List (List ℕ))
    (h50 : ∀ r ∈ records, r.length = 50) :
    readFacets records.length records.flatten =
      .ok (records.map decodeRecord) := by
  induction records with
  | nil => rfl
  | cons r rs ih =>
    have hr : r.length = 50 := h50 r (List.mem_cons_self r rs)
    have hrs : ∀ q ∈ rs, q.length = 50 := fun q hq => h50 q (List.mem_cons_of_mem r hq)
    have l12 : (r.drop 12).length = 38 := by simp [List.length_drop, hr]
    have l24 : (r.drop 24).length = 26 := by simp [List.length_drop, hr]
    have l36 : (r.drop 36).length = 14 := by simp [List.length_drop, hr]
    have l48 : (r.drop 48).length = 2 := by simp [List.length_drop, hr]
    have a0 : (r ++ rs.flatten).take 12 = r.take 12 :=
      List.take_append_of_le_length (by omega)
    have a1 : (r ++ rs.flatten).drop 12 = r.drop 12 ++ rs.flatten :=
      List.drop_append_of_le_length (by omega)
    have b2 : (r.drop 12 ++ rs.flatten).drop 12 = r.drop 24 ++ rs.flatten := by
      rw [List.drop_append_of_le_length (by omega), List.drop_drop]
    have b3 : (r.drop 24 ++ rs.flatten).drop 12 = r.drop 36 ++ rs.flatten := by
      rw [List.drop_append_of_le_length (by omega), List.drop_drop]
    have b4 : (r.drop 36 ++ rs.flatten).drop 12 = r.drop 48 ++ rs.flatten := by
      rw [List.drop_append_of_le_length (by omega), List.drop_drop]
    have b5 : (r.drop 48 ++ rs.flatten).drop 2 = rs.flatten := by
      rw [List.drop_append_of_le_length (by omega), List.drop_drop,
        show r.drop (48 + 2) = [] from List.drop_eq_nil_of_le (by omega)]
      rfl
    have t1 : (r.drop 12 ++ rs.flatten).take 12 = (r.drop 12).take 12 :=
      List.take_append_of_le_length (by omega)
    have t2 : (r.drop 24 ++ rs.flatten).take 12 = (r.drop 24).take 12 :=
      List.take_append_of_le_length (by omega)
    have t3 : (r.drop 36 ++ rs.flatten).take 12 = (r.drop 36).take 12 :=
      List.take_append_of_le_length (by omega)
    show readFacets (rs.length + 1) (r ++ rs.flatten) = _
    rw [readFacets, a0, a1, t1, b2, t2, b3, t3, b4, b5,
      unpack3f_take r (by omega), unpack3f_take (r.drop 12) (by omega),
      unpack3f_take (r.drop 24) (by omega), unpack3f_take (r.drop 36) (by omega),
      ih hrs]
    rfl

/-- Claim C2: a well-formed binary mesh — 80-byte header, 4-byte
little-endian triangle count equal to the number of records, and
consecutive 50-byte facet records — parses to exactly those records
decoded in order: normal triple first, then the three vertex triples, each
coordinate the little-endian 4-byte float (represented by its bit pattern)
at its offset; the header bytes are arbitrary (ignored) and each record's
trailing 2 attribute bytes are not inspected by `decodeRecord`. -/
theorem parse_binary_wellformed (header cnt : List ℕ) (records : List (List ℕ))
    (h80 : header.length = 80) (h4 : cnt.length = 4)
    (hcnt : leWord cnt = records.length)
    (h50 : ∀ r ∈ records, r.length = 50) :
    parseBinarySTL (header ++ (cnt ++ records.flatten)) =
      .ok (records.map decodeRecord) := by
  unfold parseBinarySTL
  rw [show (header ++ (cnt ++ records.flatten)).drop 80 = cnt ++ records.flatten by
    rw [← h80, List.drop_left]]
  rw [show (cnt ++ records.flatten).take 4 = cnt by rw [← h4, List.take_left]]
  rw [show (cnt ++ records.flatten).drop 4 = records.flatten by
    rw [← h4, List.drop_left]]
  rw [if_pos h4, hcnt]
  exact readFacets_records records h50

/-- Witness for C2: a concrete one-record file parses to the record's
decoding. -/
theorem parse_binary_wellformed_witness :
    hdr80.length = 80 ∧ leWord [1, 0, 0, 0] = [List.range 50].length ∧
      parseBinarySTL (hdr80 ++ ([1, 0, 0, 0] ++ [List.range 50].flatten)) =
        .ok ([List.range 50].map decodeRecord) :=
  ⟨by decide, by decide,
    parse_binary_wellformed hdr80 [1, 0, 0, 0] [List.range 50]
      (by decide) (by decide) (by decide) (by decide)⟩

/-- Whenever the bytes cannot cover the four 12-byte float reads of every
declared facet (fewer than `50·n − 2` bytes), the facet loop raises the
struct decode error. -/
theorem readFacets_short (n : ℕ) : ∀ bs : List ℕ,
    bs.length + 2 < 50 * n → readFacets n bs = .error .structErr := by
  induction n with
  | zero => intro bs h; exact absurd h (by omega)
  | succ n ih =>
    intro bs h
    by_cases h12 : bs.length < 12
    · rw [readFacets, unpack3f_take_none bs h12]
    · by_cases h24 : bs.length < 24
      · rw [readFacets, unpack3f_take bs (by omega),
          unpack3f_take_none (bs.drop 12) (by simp [List.length_drop]; omega)]
      · by_cases h36 : bs.length < 36
        · rw [readFacets, unpack3f_take bs (by omega),
            unpack3f_take (bs.drop 12) (by simp [List.length_drop]; omega),
            unpack3f_take_none ((bs.drop 12).drop 12)
              (by simp [List.length_drop]; omega)]
        · by_cases h48 : bs.length < 48
          · rw [readFacets, unpack3f_take bs (by omega),
              unpack3f_take (bs.drop 12) (by simp [List.length_drop]; omega),
              unpack3f_take ((bs.drop 12).drop 12)
                (by simp [List.length_drop]; omega),
              unpack3f_take_none (((bs.drop 12).drop 12).drop 12)
                (by simp [List.length_drop]; omega)]
          · have e : ((((bs.drop 12).drop 12).drop 12).drop 12).drop 2 =
                bs.drop 50 := by
              simp [List.drop_drop]
            rw [readFacets, unpack3f_take bs (by omega),
              unpack3f_take (bs.drop 12) (by simp [List.length_drop]; omega),
              unpack3f_take ((bs.drop 12).drop 12)
                (by simp [List.length_drop]; omega),
              unpack3f_take (((bs.drop 12).drop 12).drop 12)
                (by simp [List.length_drop]; omega),
              e, ih (bs.drop 50) (by simp [List.length_drop]; omega)]

/-- Claim C1, amended: whenever fewer than `50·N − 2` bytes follow the
count (i.e. one of the four 12-byte float reads of some declared facet
comes back short), the parser raises the struct decode error — it never
returns a truncated facet list. (The error is `struct.error`; no
`TruncatedFileError` class exists. And when exactly the last record's two
attribute bytes are missing the parser instead succeeds, see the
counterexample.) -/
theorem parse_truncated_error (header cnt body : List ℕ)
    (h80 : header.length = 80) (h4 : cnt.length = 4)
    (hlt : body.length + 2 < 50 * leWord cnt) :
    parseBinarySTL (header ++ (cnt ++ body)) = .error .structErr := by
  unfold parseBinarySTL
  rw [show (header ++ (cnt ++ body)).drop 80 = cnt ++ body by
    rw [← h80, List.drop_left]]
  rw [show (cnt ++ body).take 4 = cnt by rw [← h4, List.take_left]]
  rw [show (cnt ++ body).drop 4 = body by rw [← h4, List.drop_left]]
  rw [if_pos h4]
  exact readFacets_short (leWord cnt) body hlt

/-- Witness for the amended C1: a file declaring 2 triangles with only 47
record bytes raises the decode error. -/
theorem parse_truncated_error_witness :
    (List.replicate 47 (0 : ℕ)).length + 2 < 50 * leWord [2, 0, 0, 0] ∧
      parseBinarySTL fileShort = .error .structErr :=
  ⟨by decide,
    parse_truncated_error hdr80 [2, 0, 0, 0] (List.replicate 47 0)
      (by decide) (by decide) (by decide)⟩

/-- Counterexample to C1 as stated: this file declares 1 triangle (50
bytes required) but carries only 48 record bytes — more bytes are required
than remain — yet the parser succeeds with the full facet instead of
failing, because the short `f.read(2)` of the attribute bytes is never
checked. -/
theorem parse_missing_attr_succeeds :
    parseBinarySTL fileMissingAttr =
        .ok [⟨(0, 0, 0), (0, 0, 0), (0, 0, 0), (0, 0, 0)⟩] ∧
      (List.replicate 48 (0 : ℕ)).length < 50 * leWord [1, 0, 0, 0] :=
  ⟨rfl, by decide⟩

/-- Claim C5: every accepted circular cross-section has at least 8
supporting points, radius variance below 2.0 and mean radius above 1 mm,
the mean radius being the mean distance of the level's points from the
level's mean 2D center; and a height level with fewer than 8 points never
produces a sample (the function is total, so no error either). -/
theorem circular_features_invariant (s : ℚ → ℚ) (facets : List Facet) :
    (∀ f ∈ findCylindricalFeatures s facets (1/2),
      8 ≤ f.numPoints ∧
      f.numPoints = (levelVerts (allVerts facets) f.z (1/2)).length ∧
      f.variance < 2 ∧ 1 < f.radius ∧
      f.radius = meanQ (radiiOf s (levelVerts (allVerts facets) f.z (1/2))) ∧
      f.cx = meanQ ((levelVerts (allVerts facets) f.z (1/2)).map (·.x)) ∧
      f.cy = meanQ ((levelVerts (allVerts facets) f.z (1/2)).map (·.y))) ∧
    (∀ z : ℚ, (levelVerts (allVerts facets) z (1/2)).length < 8 →
      ∀ f ∈ findCylindricalFeatures s facets (1/2), f.z ≠ z) := by
  constructor
  · intro f hf
    simp only [findCylindricalFeatures, List.mem_filterMap] at hf
    obtain ⟨z, hz, hbody⟩ := hf
    by_cases h1 : (levelVerts (allVerts facets) z (1/2)).length < 8
    · rw [if_pos h1] at hbody
      exact absurd hbody (by simp)
    · rw [if_neg h1] at hbody
      by_cases h2 : varQ (radiiOf s (levelVerts (allVerts facets) z (1/2))) < 2 ∧
          1 < meanQ (radiiOf s (levelVerts (allVerts facets) z (1/2)))
      · rw [if_pos h2] at hbody
        have hef := Option.some.inj hbody
        subst hef
        exact ⟨Nat.le_of_not_lt h1, rfl, h2.1, h2.2, rfl, rfl, rfl⟩
      · rw [if_neg h2] at hbody
        exact absurd hbody (by simp)
  · intro z1 hz1 f hf heq
    simp only [findCylindricalFeatures, List.mem_filterMap] at hf
    obtain ⟨z, hz, hbody⟩ := hf
    by_cases h1 : (levelVerts (allVerts facets) z (1/2)).length < 8
    · rw [if_pos h1] at hbody
      exact absurd hbody (by simp)
    · rw [if_neg h1] at hbody
      by_cases h2 : varQ (radiiOf s (levelVerts (allVerts facets) z (1/2))) < 2 ∧
          1 < meanQ (radiiOf s (levelVerts (allVerts facets) z (1/2)))
      · rw [if_pos h2] at hbody
        have hef := Option.some.inj hbody
        subst hef
        exact h1 (by rw [show z = z1 from heq] at h1 ⊢; exact hz1)
      · rw [if_neg h2] at hbody
        exact absurd hbody (by simp)

/-- Witness for C5: the radius-2 circle facets produce the sample at
height 0 with 12 points, variance 0 and mean radius 2. -/
theorem circular_features_invariant_witness :
    (⟨0, 0, 0, 2, 0, 12⟩ : CircFeature) ∈
        findCylindricalFeatures sqrtQ circleFacets (1/2) ∧
      8 ≤ (⟨0, 0, 0, 2, 0, 12⟩ : CircFeature).numPoints ∧
      (⟨0, 0, 0, 2, 0, 12⟩ : CircFeature).variance < 2 ∧
      1 < (⟨0, 0, 0, 2, 0, 12⟩ : CircFeature).radius := by
  have h := (circular_features_invariant sqrtQ circleFacets).1
    ⟨0, 0, 0, 2, 0, 12⟩ (by with_unfolding_all decide)
  exact ⟨by with_unfolding_all decide, h.1, h.2.2.1, h.2.2.2.1⟩

/-- Pairwise transfer through `filterMap`, keeping memberships. -/
theorem pairwise_filterMap_mem {α β : Type} (f : α → Option β)
    {R : α → α → Prop} {S : β → β → Prop} :
    ∀ {l : List α}, List.Pairwise R l →
      (∀ a, a ∈ l → ∀ b, b ∈ l → R a b →
        ∀ c, f a = some c → ∀ d, f b = some d → S c d) →
      List.Pairwise S (l.filterMap f)
  | [], _, _ => List.Pairwise.nil
  | a :: t, hp, h => by
    obtain ⟨hhead, htail⟩ := List.pairwise_cons.mp hp
    have ih := pairwise_filterMap_mem f htail
      (fun x hx y hy r c hc d hd =>
        h x (List.mem_cons_of_mem a hx) y (List.mem_cons_of_mem a hy) r c hc d hd)
    rw [List.filterMap_cons]
    cases hfa : f a with
    | none => exact ih
    | some c =>
      refine List.pairwise_cons.mpr ⟨?_, ih⟩
      intro d hd
      obtain ⟨b, hb, hfb⟩ := List.mem_filterMap.mp hd
      exact h a (List.mem_cons_self a t) b (List.mem_cons_of_mem a hb)
        (hhead b hb) c hfa d hfb

/-- Two distinct multiples of one fifth are at least one fifth apart. -/
theorem fifth_gap (a b : ℚ) (ha : ∃ j : ℤ, a = (j : ℚ)/5)
    (hb : ∃ k : ℤ, b = (k : ℚ)/5) (hab : a < b) : 1/100 < b - a := by
  obtain ⟨j, rfl⟩ := ha
  obtain ⟨k, rfl⟩ := hb
  have hjk : j < k := by exact_mod_cast (by linarith : (j : ℚ) < k)
  have h1 : (j : ℚ) + 1 ≤ (k : ℚ) := by exact_mod_cast hjk
  linarith

/-- The sorted bucket keys are strictly increasing. -/
theorem zKeys_sorted_lt (cvs : List CylVert) :
    List.Pairwise (· < ·) (zKeys cvs) := by
  have hsorted : List.Pairwise (fun a b : ℚ => a ≤ b) (zKeys cvs) :=
    List.sorted_insertionSort _ _
  have hnodup : (zKeys cvs).Nodup :=
    ((List.perm_insertionSort _ _).nodup_iff).mpr (List.nodup_dedup _)
  exact (List.Pairwise.and hsorted hnodup).imp
    (fun h => lt_of_le_of_ne h.1 h.2)

/-- Every bucket key is an integer number of fifths. -/
theorem zKeys_form (cvs : List CylVert) :
    ∀ zk ∈ zKeys cvs, ∃ k : ℤ, zk = (k : ℚ)/5 := by
  intro zk hzk
  have h1 : zk ∈ (cvs.map bkey).dedup :=
    ((List.perm_insertionSort _ _).mem_iff).mp hzk
  rw [List.mem_dedup] at h1
  obtain ⟨v, _, hbv⟩ := List.mem_map.mp h1
  exact ⟨pyRound (v.z * 5), hbv ▸ rfl⟩

/-- Consecutive progression entries are more than 0.01 apart in height. -/
theorem progression_gaps (cvs : List CylVert) :
    List.Pairwise (fun a b : ProgEntry => 1/100 < b.z - a.z)
      (progression cvs) := by
  unfold progression
  refine pairwise_filterMap_mem _ (zKeys_sorted_lt cvs) ?_
  intro a ha b hb hab c hc d hd
  by_cases h3a : 3 < (bucketOf cvs a).length
  · rw [if_pos h3a] at hc
    by_cases h3b : 3 < (bucketOf cvs b).length
    · rw [if_pos h3b] at hd
      have hc2 := Option.some.inj hc
      have hd2 := Option.some.inj hd
      rw [← hc2, ← hd2]
      exact fifth_gap a b (zKeys_form cvs a ha) (zKeys_form cvs b hb) hab
    · rw [if_neg h3b] at hd
      exact absurd hd (by simp)
  · rw [if_neg h3a] at hc
    exact absurd hc (by simp)

/-- With at least two progression entries and gapped heights, the slope
list is nonempty. -/
theorem slopes_ne_nil (pi : ℚ) (P : List ProgEntry) (h2 : 2 ≤ P.length)
    (hp : List.Pairwise (fun a b : ProgEntry => 1/100 < b.z - a.z) P) :
    slopes pi P ≠ [] := by
  match P, h2 with
  | a :: b :: rest, _ =>
    have hgap := (List.pairwise_cons.mp hp).1 b (List.mem_cons_self b rest)
    intro h
    rw [slopes, if_pos hgap] at h
    simp at h

/-- Claim C3: with at least 5 progression buckets, the detector reports
helical exactly when the variance of the consecutive-pair slopes is below
0.01 and the magnitude of their mean exceeds 0.01; and every helical
report carries pitch `2π/|mean slope|` and handedness right exactly for a
positive mean slope. -/
theorem helix_classification (pi : ℚ) (cvs : List CylVert)
    (h5 : 5 ≤ (progression cvs).length) :
    ((∃ p r d hd, detectHelicalPattern pi cvs = some (.helical p r d hd)) ↔
      (varQ (slopes pi (progression cvs)) < 1/100 ∧
        1/100 < |meanQ (slopes pi (progression cvs))|)) ∧
    (∀ p r d hd, detectHelicalPattern pi cvs = some (.helical p r d hd) →
      p = 2 * pi / |meanQ (slopes pi (progression cvs))| ∧
      hd = (if 0 < meanQ (slopes pi (progression cvs))
        then Hand.right else Hand.left)) := by
  have hlen : (progression cvs).length ≤ (zKeys cvs).length := by
    unfold progression
    exact List.length_filterMap_le _ _
  have hz5 : ¬ (zKeys cvs).length < 5 := by omega
  have hcne : ¬ cvs = [] := by
    intro h
    rw [h] at h5
    have : progression [] = [] := rfl
    rw [this] at h5
    simp at h5
  have hp5 : ¬ (progression cvs).length < 5 := by omega
  have hne : slopes pi (progression cvs) ≠ [] :=
    slopes_ne_nil pi (progression cvs) (by omega) (progression_gaps cvs)
  simp only [detectHelicalPattern, if_neg hcne, if_neg hz5, if_neg hp5,
    if_neg hne]
  by_cases hcls : varQ (slopes pi (progression cvs)) < 1/100 ∧
      1/100 < |meanQ (slopes pi (progression cvs))|
  · rw [if_pos hcls, if_pos (by linarith [hcls.2] :
      (1 : ℚ)/1000 < |meanQ (slopes pi (progression cvs))|)]
    constructor
    · exact ⟨fun _ => hcls, fun _ => ⟨_, _, _, _, rfl⟩⟩
    · intro p r d hd heq
      simp only [Option.some.injEq, HelixResult.helical.injEq] at heq
      exact ⟨heq.1.symm, heq.2.2.2.symm⟩
  · rw [if_neg hcls]
    constructor
    · constructor
      · rintro ⟨p, r, d, hd, heq⟩
        simp at heq
      · intro h
        exact absurd h hcls
    · intro p r d hd heq
      simp at heq

/-- Witness for C3: a synthetic helix with slope 1 rad/mm over five
buckets is classified, and the classification matches the slope
statistics. -/
theorem helix_classification_witness :
    5 ≤ (progression helixVerts).length ∧
      ((∃ p r d hd,
          detectHelicalPattern (157/50) helixVerts = some (.helical p r d hd)) ↔
        (varQ (slopes (157/50) (progression helixVerts)) < 1/100 ∧
          1/100 < |meanQ (slopes (157/50) (progression helixVerts))|)) :=
  ⟨by with_unfolding_all decide,
    (helix_classification (157/50) helixVerts (by with_unfolding_all decide)).1⟩

/-- Claim C4, amended: with fewer than 5 populated height buckets the
detector returns `None` — a well-defined non-result that callers treat as
"not helical" — rather than a classification record with
`is_helical = false`; it does not raise. -/
theorem helix_few_buckets_none (pi : ℚ) (cvs : List CylVert)
    (h : (zKeys cvs).length < 5) : detectHelicalPattern pi cvs = none := by
  by_cases hc : cvs = []
  · rw [hc]
    rfl
  · simp only [detectHelicalPattern, if_neg hc, if_pos h]

/-- Witness for the amended C4: one populated bucket yields `None`. -/
theorem helix_few_buckets_none_witness :
    (zKeys oneBucketVerts).length < 5 ∧
      detectHelicalPattern (157/50) oneBucketVerts = none :=
  ⟨by with_unfolding_all decide,
    helix_few_buckets_none (157/50) oneBucketVerts (by with_unfolding_all decide)⟩

/-- Counterexample to C4 as stated: on an input with a single populated
height bucket the detector returns `None` — `isSome` is `false`, so there
is no returned classification at all, in particular none with
`is_helical = false`. -/
theorem helix_few_buckets_counterexample :
    (zKeys oneBucketVerts).length = 1 ∧
      detectHelicalPattern (157/50) oneBucketVerts = none ∧
      (detectHelicalPattern (157/50) oneBucketVerts).isSome = false := by
  refine ⟨?_, ?_, ?_⟩
  · with_unfolding_all decide
  · with_unfolding_all decide
  · with_unfolding_all decide

/-- Step equation of the inner merge loop on a cons cell. -/
theorem mergeFirst_cons (s : ℚ → ℚ) (thr : ℚ) (hole c : Hole)
    (cs : List Hole) :
    mergeFirst s thr hole (c :: cs) =
      if isClose s thr hole c then
        some ((if c.conf < hole.conf then hole else c) :: cs)
      else (mergeFirst s thr hole cs).map (c :: ·) := rfl

/-- `cluster_holes` merges an incoming hole into the first close cluster:
that cluster is replaced wholesale by the incoming hole when the incoming
confidence is strictly greater, and kept untouched otherwise. -/
theorem mergeFirst_first (s : ℚ → ℚ) (thr : ℚ) (hole : Hole) :
    ∀ (pre : List Hole) (c : Hole) (suf : List Hole),
      (∀ c' ∈ pre, ¬ isClose s thr hole c') → isClose s thr hole c →
      mergeFirst s thr hole (pre ++ c :: suf) =
        some (pre ++ (if c.conf < hole.conf then hole else c) :: suf)
  | [], c, suf, _, hc => by
    simp only [List.nil_append, mergeFirst_cons, if_pos hc]
  | p :: pre, c, suf, hpre, hc => by
    rw [List.cons_append, mergeFirst_cons,
      if_neg (hpre p (List.mem_cons_self p pre)),
      mergeFirst_first s thr hole pre c suf
        (fun c' hc' => hpre c' (List.mem_cons_of_mem p hc')) hc]
    rfl

/-- Claim C6, amended: when the clusterer merges a hole into the first
candidate within the merge distance, the resulting candidate is exactly
the higher-confidence contributor's record — all attributes including the
height range come from that one contributor (ties keep the existing
candidate); the height range is never extended to the union. -/
theorem cluster_merge_keeps_higher (s : ℚ → ℚ) (thr : ℚ) (hole : Hole)
    (pre suf : List Hole) (c : Hole)
    (hpre : ∀ c' ∈ pre, ¬ isClose s thr hole c')
    (hc : isClose s thr hole c) :
    clusterStep s thr (pre ++ c :: suf) hole =
      pre ++ (if c.conf < hole.conf then hole else c) :: suf := by
  unfold clusterStep
  rw [mergeFirst_first s thr hole pre c suf hpre hc]

/-- Witness for the amended C6: merging the lower-confidence `hB` into the
cluster `hA` keeps `hA` verbatim. -/
theorem cluster_merge_keeps_higher_witness :
    isClose sqrtQ 3 hB hA ∧
      clusterStep sqrtQ 3 [hA] hB = [if hA.conf < hB.conf then hB else hA] :=
  ⟨by with_unfolding_all decide,
    cluster_merge_keeps_higher sqrtQ 3 hB [] [] hA (by simp)
      (by with_unfolding_all decide)⟩

/-- Counterexample to C6 as stated: `hB` (heights [2, 10]) merges into
`hA` (heights [0, 5], higher confidence); the claim requires the merged
candidate's height range to become the union [0, 10], but the result is
`hA` unchanged with range [0, 5]. -/
theorem cluster_no_height_union :
    clusterHoles sqrtQ [hA, hB] 3 = [hA] ∧
      isClose sqrtQ 3 hB hA ∧
      (hA.zmin, hA.zmax) = ((0 : ℚ), (5 : ℚ)) ∧
      (min hA.zmin hB.zmin, max hA.zmax hB.zmax) = ((0 : ℚ), (10 : ℚ)) ∧
      ¬((5 : ℚ) = 10) := by
  refine ⟨?_, ?_, ?_, ?_, ?_⟩ <;> with_unfolding_all decide

/-- Two sorted-descending permutations with pairwise distinct confidences
are equal. -/
theorem sorted_desc_unique : ∀ (m1 m2 : List Hole), m1.Perm m2 →
    List.Pairwise (fun a b : Hole => b.conf ≤ a.conf) m1 →
    List.Pairwise (fun a b : Hole => b.conf ≤ a.conf) m2 →
    List.Pairwise (fun a b : Hole => a.conf ≠ b.conf) m1 →
    m1 = m2
  | [], m2, hperm, _, _, _ => hperm.nil_eq
  | a :: t1, [], hperm, _, _, _ => absurd hperm.symm.nil_eq (by simp)
  | a :: t1, b :: t2, hperm, hs1, hs2, hne1 => by
    have hab : a = b := by
      rcases List.mem_cons.mp (hperm.mem_iff.mp (List.mem_cons_self a t1)) with
        h | ha2
      · exact h
      · rcases List.mem_cons.mp (hperm.symm.mem_iff.mp
          (List.mem_cons_self b t2)) with h | hb1
        · exact h.symm
        · have h1 : b.conf ≤ a.conf := (List.pairwise_cons.mp hs1).1 b hb1
          have h2 : a.conf ≤ b.conf := (List.pairwise_cons.mp hs2).1 a ha2
          exact absurd (Nat.le_antisymm h2 h1)
            ((List.pairwise_cons.mp hne1).1 b hb1)
    subst hab
    have htail := sorted_desc_unique t1 t2 hperm.cons_inv
      (List.pairwise_cons.mp hs1).2 (List.pairwise_cons.mp hs2).2
      (List.pairwise_cons.mp hne1).2
    rw [htail]

/-- Claim C7, amended: when the confidences are pairwise distinct, the
clusterer is order-independent — any two input orderings yield the same
candidate list (hence the same centers). With confidence ties the stable
descending sort depends on the input order and the result can differ, see
the counterexample. -/
theorem cluster_order_independent (s : ℚ → ℚ) (thr : ℚ) (l1 l2 : List Hole)
    (hperm : l1.Perm l2)
    (hconf : l1.Pairwise (fun a b : Hole => a.conf ≠ b.conf)) :
    clusterHoles s l1 thr = clusterHoles s l2 thr := by
  have hsortperm : (sortHolesDesc l1).Perm (sortHolesDesc l2) :=
    ((List.perm_insertionSort _ l1).trans hperm).trans
      (List.perm_insertionSort _ l2).symm
  have hs1 : List.Pairwise (fun a b : Hole => b.conf ≤ a.conf)
      (sortHolesDesc l1) := List.sorted_insertionSort _ _
  have hs2 : List.Pairwise (fun a b : Hole => b.conf ≤ a.conf)
      (sortHolesDesc l2) := List.sorted_insertionSort _ _
  have hne1 : List.Pairwise (fun a b : Hole => a.conf ≠ b.conf)
      (sortHolesDesc l1) :=
    ((List.perm_insertionSort _ l1).pairwise_iff (fun h => Ne.symm h)).mpr hconf
  have hsort : sortHolesDesc l1 = sortHolesDesc l2 :=
    sorted_desc_unique _ _ hsortperm hs1 hs2 hne1
  unfold clusterHoles
  by_cases h1 : l1 = []
  · have h2 : l2 = [] := by
      subst h1
      exact hperm.nil_eq.symm
    rw [if_pos h1, if_pos h2]
  · have h2 : ¬ l2 = [] := by
      intro h
      subst h
      exact h1 hperm.symm.nil_eq.symm
    rw [if_neg h1, if_neg h2, hsort]

/-- Witness for the amended C7: two orderings of distinct-confidence holes
produce identical clusterings. -/
theorem cluster_order_independent_witness :
    List.Perm [hA, hB] [hB, hA] ∧
      List.Pairwise (fun a b : Hole => a.conf ≠ b.conf) [hA, hB] ∧
      clusterHoles sqrtQ [hA, hB] 3 = clusterHoles sqrtQ [hB, hA] 3 :=
  ⟨by with_unfolding_all decide, by with_unfolding_all decide,
    cluster_order_independent sqrtQ 3 [hA, hB] [hB, hA]
      (by with_unfolding_all decide) (by with_unfolding_all decide)⟩

/-- Counterexample to C7 as stated: three equal-confidence holes in a
chain. In one input order the clusterer returns two candidates (centers
(0,0) and (5,0)); in another order of the same set it returns one
candidate (center (5/2,0)): the final candidate center sets differ. -/
theorem cluster_order_dependent :
    List.Perm [p1, p2, p3] [p2, p1, p3] ∧
      (clusterHoles sqrtQ [p1, p2, p3] 3).map (fun h => (h.cx, h.cy)) =
        [((0 : ℚ), (0 : ℚ)), (5, 0)] ∧
      (clusterHoles sqrtQ [p2, p1, p3] 3).map (fun h => (h.cx, h.cy)) =
        [((5/2 : ℚ), (0 : ℚ))] := by
  refine ⟨?_, ?_, ?_⟩ <;> with_unfolding_all decide

/-- When no existing cluster has strictly lower confidence than the
incoming hole, the replace branch cannot fire: the merge either leaves the
cluster list untouched or appends nothing new to any cluster. -/
theorem mergeFirst_no_update (s : ℚ → ℚ) (thr : ℚ) (hole : Hole) :
    ∀ cl : List Hole, (∀ c ∈ cl, ¬ c.conf < hole.conf) →
      mergeFirst s thr hole cl = none ∨ mergeFirst s thr hole cl = some cl
  | [], _ => Or.inl rfl
  | c :: cs, hno => by
    rw [mergeFirst_cons]
    by_cases hc : isClose s thr hole c
    · rw [if_pos hc, if_neg (hno c (List.mem_cons_self c cs))]
      exact Or.inr rfl
    · rw [if_neg hc]
      rcases mergeFirst_no_update s thr hole cs
        (fun c' hc' => hno c' (List.mem_cons_of_mem c hc')) with h | h
      · rw [h]
        exact Or.inl rfl
      · rw [h]
        exact Or.inr rfl

/-- One clusterer iteration over already-stronger clusters either keeps
the list or appends the hole as a new cluster, never modifying a
cluster. -/
theorem clusterStep_no_update (s : ℚ → ℚ) (thr : ℚ) (cl : List Hole)
    (hole : Hole) (hno : ∀ c ∈ cl, ¬ c.conf < hole.conf) :
    clusterStep s thr cl hole = cl ∨ clusterStep s thr cl hole = cl ++ [hole] := by
  unfold clusterStep
  rcases mergeFirst_no_update s thr hole cl hno with h | h <;> rw [h]
  · exact Or.inr rfl
  · exact Or.inl rfl

/-- The clusterer fold over descending-confidence holes only ever appends
new clusters: the result extends the accumulator by a sublist of the
remaining holes, each taken verbatim. -/
theorem foldl_cluster_spec (s : ℚ → ℚ) (thr : ℚ) :
    ∀ (rest clustered : List Hole),
      List.Pairwise (fun a b : Hole => b.conf ≤ a.conf) rest →
      (∀ c ∈ clustered, ∀ h ∈ rest, h.conf ≤ c.conf) →
      ∃ t, List.foldl (clusterStep s thr) clustered rest = clustered ++ t ∧
        t.Sublist rest
  | [], clustered, _, _ => ⟨[], by simp, List.nil_sublist _⟩
  | h :: hs, clustered, hrest, hacc => by
    have hhead := (List.pairwise_cons.mp hrest).1
    have htail := (List.pairwise_cons.mp hrest).2
    have hno : ∀ c ∈ clustered, ¬ c.conf < h.conf :=
      fun c hc => Nat.not_lt.mpr (hacc c hc h (List.mem_cons_self h hs))
    rw [List.foldl_cons]
    rcases clusterStep_no_update s thr clustered h hno with hstep | hstep
    · rw [hstep]
      obtain ⟨t, ht, hsub⟩ := foldl_cluster_spec s thr hs clustered htail
        (fun c hc h' hh' => hacc c hc h' (List.mem_cons_of_mem h hh'))
      exact ⟨t, ht, List.Sublist.cons h hsub⟩
    · rw [hstep]
      have haug : ∀ c ∈ clustered ++ [h], ∀ h' ∈ hs, h'.conf ≤ c.conf := by
        intro c hc h' hh'
        rcases List.mem_append.mp hc with h1 | h1
        · exact hacc c h1 h' (List.mem_cons_of_mem h hh')
        · rw [List.mem_singleton.mp h1]
          exact hhead h' hh'
      obtain ⟨t, ht, hsub⟩ := foldl_cluster_spec s thr hs (clustered ++ [h])
        htail haug
      refine ⟨h :: t, ?_, List.Sublist.cons₂ h hsub⟩
      rw [ht]
      simp

/-- Claim C10: every candidate returned by the clusterer is one of the
input holes verbatim (the creator of its cluster, processed in descending
confidence order, so the replace branch never fires and no candidate is
modified after creation), and the returned list is in descending
confidence order. -/
theorem cluster_holes_frame (s : ℚ → ℚ) (thr : ℚ) (holes : List Hole) :
    (clusterHoles s holes thr).Sublist (sortHolesDesc holes) ∧
      List.Pairwise (fun a b : Hole => b.conf ≤ a.conf)
        (clusterHoles s holes thr) ∧
      ∀ c ∈ clusterHoles s holes thr, c ∈ holes := by
  have hsorted : List.Pairwise (fun a b : Hole => b.conf ≤ a.conf)
      (sortHolesDesc holes) := List.sorted_insertionSort _ _
  unfold clusterHoles
  by_cases h : holes = []
  · rw [if_pos h]
    exact ⟨List.nil_sublist _, List.Pairwise.nil, by simp⟩
  · rw [if_neg h]
    obtain ⟨t, ht, hsub⟩ := foldl_cluster_spec s thr (sortHolesDesc holes) []
      hsorted (by simp)
    rw [ht]
    simp only [List.nil_append]
    refine ⟨hsub, List.Pairwise.sublist hsub hsorted, ?_⟩
    intro c hc
    exact (List.perm_insertionSort _ holes).mem_iff.mp (hsub.subset hc)

/-- A location appears in the top-face scan exactly when it is a grid
candidate with fewer than 10 inner vertices and more than 50 annulus
vertices. -/
theorem voidScanTop_mem (s : ℚ → ℚ) (pts : List (ℚ × ℚ)) (r : ℚ)
    (gx gy : List ℤ) (cx cy : ℤ) :
    (∃ h ∈ voidScanTop s pts r gx gy, h.x = cx ∧ h.y = cy) ↔
      (cx ∈ gx ∧ cy ∈ gy ∧ centerCount s pts r cx cy < 10 ∧
        50 < perimCount s pts r cx cy) := by
  constructor
  · rintro ⟨h, hmem, hx, hy⟩
    simp only [voidScanTop, List.mem_flatMap, List.mem_filterMap] at hmem
    obtain ⟨cx', hgx, cy', hgy, hsome⟩ := hmem
    by_cases hcond : centerCount s pts r cx' cy' < 10 ∧
        50 < perimCount s pts r cx' cy'
    · rw [if_pos hcond] at hsome
      have hh := Option.some.inj hsome
      subst hh
      subst hx
      subst hy
      exact ⟨hgx, hgy, hcond.1, hcond.2⟩
    · rw [if_neg hcond] at hsome
      exact absurd hsome (by simp)
  · rintro ⟨hgx, hgy, h1, h2⟩
    refine ⟨⟨cx, cy, centerCount s pts r cx cy, perimCount s pts r cx cy,
      (perimCount s pts r cx cy : ℚ) /
        ((max (centerCount s pts r cx cy) 1 : ℕ) : ℚ)⟩, ?_, rfl, rfl⟩
    simp only [voidScanTop, List.mem_flatMap, List.mem_filterMap]
    exact ⟨cx, hgx, cy, hgy, by rw [if_pos ⟨h1, h2⟩]⟩

/-- A location appears in the back-face scan exactly when it is a grid
candidate with fewer than 10 inner vertices and more than 40 annulus
vertices. -/
theorem voidScanBack_mem (s : ℚ → ℚ) (pts : List (ℚ × ℚ)) (r : ℚ)
    (gx gz : List ℤ) (cx cz : ℤ) :
    (∃ h ∈ voidScanBack s pts r gx gz, h.x = cx ∧ h.z = cz) ↔
      (cx ∈ gx ∧ cz ∈ gz ∧ centerCount s pts r cx cz < 10 ∧
        40 < perimCount s pts r cx cz) := by
  constructor
  · rintro ⟨h, hmem, hx, hz⟩
    simp only [voidScanBack, List.mem_flatMap, List.mem_filterMap] at hmem
    obtain ⟨cx', hgx, cz', hgz, hsome⟩ := hmem
    by_cases hcond : centerCount s pts r cx' cz' < 10 ∧
        40 < perimCount s pts r cx' cz'
    · rw [if_pos hcond] at hsome
      have hh := Option.some.inj hsome
      subst hh
      subst hx
      subst hz
      exact ⟨hgx, hgz, hcond.1, hcond.2⟩
    · rw [if_neg hcond] at hsome
      exact absurd hsome (by simp)
  · rintro ⟨hgx, hgz, h1, h2⟩
    refine ⟨⟨cx, cz, centerCount s pts r cx cz, perimCount s pts r cx cz,
      (perimCount s pts r cx cz : ℚ) /
        ((max (centerCount s pts r cx cz) 1 : ℕ) : ℚ)⟩, ?_, rfl, rfl⟩
    simp only [voidScanBack, List.mem_flatMap, List.mem_filterMap]
    exact ⟨cx, hgx, cz, hgz, by rw [if_pos ⟨h1, h2⟩]⟩

/-- Claim C8, amended: each void sweep reports a hit at a grid candidate
iff the inner-disk count is below 10 and the annulus count exceeds that
sweep's threshold — which is 50 for the top-face sweep
(`sphere_sweep_detection.py`) and 40 for the back-face sweep
(`find_stacked_ports.py`); the claim's uniform threshold of 40 only holds
for the back-face sweep. -/
theorem voidsweep_thresholds :
    (∀ (s : ℚ → ℚ) (vs : List Vec3) (r zmax : ℚ) (t0 : Vec3) (ts : List Vec3),
      listMax1 (vs.map (·.z)) = some zmax →
      topFace vs zmax = t0 :: ts →
      ∃ hits, findCircularVoidsOnTop s vs r = some hits ∧
        ∀ cx cy : ℤ,
          ((∃ h ∈ hits, h.x = cx ∧ h.y = cy) ↔
            (cx ∈ gridOf (·.x) (t0 :: ts) ∧ cy ∈ gridOf (·.y) (t0 :: ts) ∧
              centerCount s ((t0 :: ts).map (fun v => (v.x, v.y))) r cx cy < 10 ∧
              50 < perimCount s ((t0 :: ts).map (fun v => (v.x, v.y))) r cx cy))) ∧
    (∀ (s : ℚ → ℚ) (vs : List Vec3) (r ymax : ℚ) (b0 : Vec3) (bs : List Vec3),
      listMax1 (vs.map (·.y)) = some ymax →
      backFace vs ymax = b0 :: bs →
      ∃ hits, findCircularVoidsOnBackFace s vs r = some (hits, ymax) ∧
        ∀ cx cz : ℤ,
          ((∃ h ∈ hits, h.x = cx ∧ h.z = cz) ↔
            (cx ∈ gridOf (·.x) (b0 :: bs) ∧ cz ∈ gridOf (·.z) (b0 :: bs) ∧
              centerCount s ((b0 :: bs).map (fun v => (v.x, v.z))) r cx cz < 10 ∧
              40 < perimCount s ((b0 :: bs).map (fun v => (v.x, v.z))) r cx cz))) := by
  constructor
  · intro s vs r zmax t0 ts hmax htop
    unfold findCircularVoidsOnTop
    simp only [hmax, htop]
    exact ⟨_, rfl, fun cx cy => voidScanTop_mem s _ r _ _ cx cy⟩
  · intro s vs r ymax b0 bs hmax hback
    unfold findCircularVoidsOnBackFace
    simp only [hmax, hback]
    exact ⟨_, rfl, fun cx cz => voidScanBack_mem s _ r _ _ cx cz⟩

set_option maxRecDepth 40000

/-- Witness for the amended C8: both sweeps run to completion on concrete
meshes. -/
theorem voidsweep_thresholds_witness :
    (∃ hits, findCircularVoidsOnTop sqrtQ annulusVerts 3 = some hits) ∧
      (∃ hits, findCircularVoidsOnBackFace sqrtQ oneVert 3 = some (hits, 0)) := by
  constructor
  · obtain ⟨hits, hh, _⟩ := voidsweep_thresholds.1 sqrtQ annulusVerts 3 0
      ⟨13, 10, 0⟩
      (List.replicate 44 ⟨13, 10, 0⟩ ++
        [⟨9, 10, 0⟩, ⟨11, 10, 0⟩, ⟨10, 9, 0⟩, ⟨10, 11, 0⟩])
      (by with_unfolding_all decide) (by with_unfolding_all decide)
    exact ⟨hits, hh⟩
  · obtain ⟨hits, hh, _⟩ := voidsweep_thresholds.2 sqrtQ oneVert 3 0
      ⟨0, 0, 0⟩ [] (by with_unfolding_all decide) (by with_unfolding_all decide)
    exact ⟨hits, hh⟩

/-- Counterexample to C8 as stated: on the top face, grid candidate
(10, 10) has 4 inner vertices (below 10) and 45 annulus vertices
(exceeding 40), so the claim requires a VoidHit there; but the top-face
sweep's threshold is 50, and it reports no hits at all. -/
theorem voids_top_threshold_counterexample :
    findCircularVoidsOnTop sqrtQ annulusVerts 3 = some [] ∧
      (10 : ℤ) ∈ gridOf (·.x) (topFace annulusVerts 0) ∧
      (10 : ℤ) ∈ gridOf (·.y) (topFace annulusVerts 0) ∧
      centerCount sqrtQ
        ((topFace annulusVerts 0).map (fun v => (v.x, v.y))) 3 10 10 = 4 ∧
      perimCount sqrtQ
        ((topFace annulusVerts 0).map (fun v => (v.x, v.y))) 3 10 10 = 45 ∧
      ((4 : ℕ) < 10 ∧ (40 : ℕ) < 45) := by
  refine ⟨?_, ?_, ?_, ?_, ?_, ?_⟩ <;> with_unfolding_all decide

/-- Claim C9: on a mesh with zero triangles the parser returns an empty
facet list and the cross-section finder an empty feature list — but
`better_hole_finder.find_vertical_cylinders` divides by the vertex count
and raises `ZeroDivisionError` instead of returning zero candidates. -/
theorem empty_mesh_pipeline :
    parseBinarySTL fileEmptyMesh = .ok [] ∧
      allVerts [] = [] ∧
      findCylindricalFeatures sqrtQ [] (1/2) = [] ∧
      findVerticalCylinders sqrtQ [] = .error .zeroDivision :=
  ⟨rfl, rfl, rfl, rfl⟩

/-- Witness for C10: on a concrete input the output is a verbatim sublist
of the descending sort, and a concrete returned candidate is one of the
inputs. -/
theorem cluster_holes_frame_witness :
    (clusterHoles sqrtQ [p1, p2, p3] 3).Sublist (sortHolesDesc [p1, p2, p3]) ∧
      p1 ∈ clusterHoles sqrtQ [p1, p2, p3] 3 ∧ p1 ∈ [p1, p2, p3] :=
  ⟨(cluster_holes_frame sqrtQ 3 [p1, p2, p3]).1,
    by with_unfolding_all decide,
    (cluster_holes_frame sqrtQ 3 [p1, p2, p3]).2.2 p1
      (by with_unfolding_all decide)⟩
